import Mathlib

/-!
Verification of the HDF5 data layer (`src/caffe/layers/hdf5_data_layer.cpp`).

The development shallowly embeds the layer's state and operations:

* `Cursor`, `wrapAdvance`, `emitOne`, `forwardBatch`, `forwardSeq` embed the
  per-sample cursor logic of `HDF5DataLayer::Forward_cpu` for the
  `shuffle = false` configuration, in which both `file_permutation_` and
  `data_permutation_` are identity permutations (`std::random_shuffle` is
  never invoked), so a file is represented directly by its list of rows.
  The `loads` field counts calls to `LoadHDF5FileData` made during forwards.
* `caffeCopy`, `assembleRows`, `forwardOutput` embed the memcpy path of the
  batch assembly, viewed per output blob; buffers are total functions
  `Nat → Nat` from element offsets to values, as pointer arithmetic is.
* `imageBind`, `imageWriteOffset` embed the `set_cpu_data` pointer
  rebinding performed on output 0 by the image+transform path.
* `imgRow`, `chwIndex`, `hwcPixel` embed the CHW→HWC materialization of
  one source row into an 8-bit interleaved image (`% 256` embeds the
  `static_cast<uint8_t>`).
* `loadCheckFatal`, `loadFile` embed the shape validation of
  `LoadHDF5FileData`; `tokenizeManifest`, `readManifest` embed the
  manifest parsing of `LayerSetUp`; `listResize`, `fillTopShape`,
  `topShapeFor`, `reshapeTops` embed its top-blob reshape loop.
-/

namespace HDF5Data

/-- Cursor state of the layer: `current_file_`, `current_row_`, and a count
of `LoadHDF5FileData` calls made during forward passes. -/
structure Cursor where
  file : Nat
  row : Nat
  loads : Nat
  deriving DecidableEq

/-- Number of rows (`hdf_blobs_[0]->shape(0)`) of file `f`. -/
def rowsOf (files : List (List Nat)) (f : Nat) : Nat :=
  (files.getD f []).length

/-- The wrap test at the head of the per-sample loop of `Forward_cpu`:
when `current_row_ == hdf_blobs_[0]->shape(0)`, advance to the next file
(only when `num_files_ > 1`, loading it) and reset `current_row_` to 0. -/
def wrapAdvance (files : List (List Nat)) (s : Cursor) : Cursor :=
  if s.row = rowsOf files s.file then
    if 1 < files.length then
      let f1 := s.file + 1
      { file := if f1 = files.length then 0 else f1, row := 0, loads := s.loads + 1 }
    else
      { file := s.file, row := 0, loads := s.loads }
  else s

/-- Emit one sample: apply the wrap test, read the selected row, and
increment `current_row_` (the `++current_row_` of the loop header). -/
def emitOne (files : List (List Nat)) (s : Cursor) : Nat × Cursor :=
  let s1 := wrapAdvance files s
  ((files.getD s1.file []).getD s1.row 0,
   { file := s1.file, row := s1.row + 1, loads := s1.loads })

/-- Cursor state right after `LayerSetUp` (`current_file_ = 0`,
`current_row_ = 0`, no forward-time loads yet). -/
def initCursor : Cursor :=
  { file := 0, row := 0, loads := 0 }

/-- Cursor state after `n` samples have been emitted. -/
def stateAfter (files : List (List Nat)) : Nat → Cursor
  | 0 => initCursor
  | n + 1 => (emitOne files (stateAfter files n)).2

/-- The `n`-th sample value of the emitted stream. -/
def sampleAt (files : List (List Nat)) (n : Nat) : Nat :=
  (emitOne files (stateAfter files n)).1

/-- One forward call with the given batch size: `batch_size` successive
sample emissions. -/
def forwardBatch (files : List (List Nat)) : Nat → Cursor → List Nat × Cursor
  | 0, s => ([], s)
  | b + 1, s =>
    let p := emitOne files s
    let q := forwardBatch files b p.2
    (p.1 :: q.1, q.2)

/-- `k` successive forward calls starting from the post-setup state;
returns the list of emitted batches and the final cursor. -/
def forwardSeq (files : List (List Nat)) (B : Nat) : Nat → List (List Nat) × Cursor
  | 0 => ([], initCursor)
  | k + 1 =>
    let p := forwardSeq files B k
    let q := forwardBatch files B p.2
    (p.1 ++ [q.1], q.2)

/-- Total number of rows in the files strictly before file `f`. -/
def rowsBefore (files : List (List Nat)) (f : Nat) : Nat :=
  ((files.take f).map List.length).sum

/-- Total number of rows over all files. -/
def totalRows (files : List (List Nat)) : Nat :=
  (files.map List.length).sum

/-- Absolute stream position represented by a cursor. -/
def absPos (files : List (List Nat)) (s : Cursor) : Nat :=
  rowsBefore files s.file + s.row

/-- Scenario S2: file A has rows `[10,11,12]`, file B has rows `[20,21]`. -/
def s2files : List (List Nat) :=
  [[10, 11, 12], [20, 21]]

/-- `caffe_copy(n, src + soff, dst + doff)` on flat element buffers:
the destination range `[doff, doff + n)` now mirrors the source range
`[soff, soff + n)`; everything else is untouched. -/
def caffeCopy (n : Nat) (src : Nat → Nat) (soff : Nat) (dst : Nat → Nat) (doff : Nat) :
    Nat → Nat :=
  fun x => if doff ≤ x ∧ x < doff + n then src (soff + (x - doff)) else dst x

/-- The per-sample copy loop of `Forward_cpu` restricted to one output
blob: for batch position `i0, i0+1, …`, copy `d` elements of the selected
source row into slot `i0, i0+1, …` of the output buffer.  `sel` lists, per
batch position, the pair (index of the file bundle read, selected row
`data_permutation_[current_row_]`); `bufs f` is the flat buffer of this
output's blob in file bundle `f`. -/
def assembleRows (bufs : Nat → Nat → Nat) (d : Nat) :
    List (Nat × Nat) → Nat → (Nat → Nat) → Nat → Nat
  | [], _, top => top
  | fr :: rest, i0, top =>
    assembleRows bufs d rest (i0 + 1) (caffeCopy d (bufs fr.1) (fr.2 * d) top (i0 * d))

/-- The gate `is_image && has_transform` with `j == 0` selecting the
image+transform treatment of output 0 in `Forward_cpu`. -/
def usesImagePath (isImage hasTransform : Bool) (j : Nat) : Bool :=
  isImage && hasTransform && decide (j = 0)

/-- The effect of one forward call on the buffer of output `j`:
the image+transform treatment (here an opaque parameter `imgPath`, settled
separately) when the gate selects it, otherwise the `caffe_copy` loop. -/
def forwardOutput (isImage hasTransform : Bool) (j : Nat) (imgPath : Nat → Nat)
    (bufs : Nat → Nat → Nat) (d : Nat) (sel : List (Nat × Nat)) (top : Nat → Nat) :
    Nat → Nat :=
  if usesImagePath isImage hasTransform j then imgPath
  else assembleRows bufs d sel 0 top

/-- Offset of output 0's data pointer from its backing store at the START
of batch iteration `i` of the image+transform path.  Iteration `i`
executes `top[0]->set_cpu_data(top[0]->mutable_cpu_data() + i*data_dim)`,
so the binding entering iteration `i+1` is the binding entering iteration
`i` advanced by `i*d`.  `imageBind d B` is also the offset of the binding
left in place after a forward of batch size `B`. -/
def imageBind (d : Nat) : Nat → Nat
  | 0 => 0
  | i + 1 => imageBind d i + i * d

/-- Element offset (from the original backing store of output 0) at which
the DataTransformer writes the transformed sample of batch iteration `i`:
the binding entering iteration `i`, advanced by the `i*data_dim` of that
iteration's `set_cpu_data` call. -/
def imageWriteOffset (d i : Nat) : Nat :=
  imageBind d i + i * d

/-- The row copied into `img_data`: `d` elements of the source buffer
starting at element `r * d` (`d` is `data_dim`). -/
def imgRow (src : Nat → Nat) (r d : Nat) : Nat → Nat :=
  fun x => src (r * d + x)

/-- The source index `c*width*height + h*width + w` used by the CHW→HWC
loop of the image path. -/
def chwIndex (height width c h w : Nat) : Nat :=
  c * width * height + h * width + w

/-- Value of channel `c` of pixel `(h, w)` of the materialized `cv::Mat`:
the row element at `chwIndex`, cast to an 8-bit unsigned integer. -/
def hwcPixel (img : Nat → Nat) (height width c h w : Nat) : Nat :=
  img (chwIndex height width c h w) % 256

/-- `Blob::count()`: product of the shape's extents. -/
def blobCount (shape : List Nat) : Nat :=
  shape.prod

/-- `top[j]->count() / top[j]->shape(0)` computed in `Forward_cpu`. -/
def dataDim (topShape : List Nat) : Nat :=
  blobCount topShape / topShape.headD 0

/-- The shape validation of `LoadHDF5FileData` over the shapes of the
loaded blobs: `CHECK_GE(hdf_blobs_[0]->num_axes(), 1)` and, for every
further blob, `CHECK_EQ(hdf_blobs_[i]->shape(0), num)`.  Returns `true`
when a check fires (the process is terminated). -/
def loadCheckFatal (shapes : List (List Nat)) : Bool :=
  match shapes with
  | [] => false
  | s0 :: rest => decide (s0.length < 1) || rest.any (fun s => decide (s.headD 0 ≠ s0.headD 0))

/-- Loading a data file given the shapes of its datasets: fatal when the
validation fires, otherwise the blobs are kept. -/
def loadFile (shapes : List (List Nat)) : Except Unit (List (List Nat)) :=
  if loadCheckFatal shapes then Except.error () else Except.ok shapes

/-- The whitespace class of `istream >> std::string` (C locale `isspace`):
space, `\t`, `\n`, `\v`, `\f`, `\r`. -/
def isWsChar (c : Char) : Bool :=
  c.toNat = 32 || c.toNat = 9 || c.toNat = 10 || c.toNat = 11 || c.toNat = 12 || c.toNat = 13

/-- One `source_file >> line` loop over the characters of the manifest:
`operator>>` skips whitespace, then reads a maximal whitespace-free run.
`cur` holds the (reversed) characters of the token being read. -/
def manifestTokens : List Char → List Char → List String
  | [], cur => if cur.isEmpty then [] else [String.mk cur.reverse]
  | c :: cs, cur =>
    if isWsChar c then
      if cur.isEmpty then manifestTokens cs []
      else String.mk cur.reverse :: manifestTokens cs []
    else manifestTokens cs (c :: cur)

/-- The token sequence read by `while (source_file >> line)`: maximal
whitespace-free substrings, in order. -/
def tokenizeManifest (s : String) : List String :=
  manifestTokens s.data []

/-- Manifest ingestion of `LayerSetUp`: `none` models a file that cannot
be opened (`LOG(FATAL)`); otherwise the tokens are collected and
`CHECK_GE(num_files_, 1)` is applied. -/
def readManifest (file : Option String) : Except Unit (List String) :=
  match file with
  | none => Except.error ()
  | some content =>
    let names := tokenizeManifest content
    if 1 ≤ names.length then Except.ok names else Except.error ()

/-- `std::vector::resize(n)` on a vector of ints: keep the first `n`
entries, value-initialize (to 0) any new ones. -/
def listResize (v : List Nat) (n : Nat) : List Nat :=
  v.take n ++ List.replicate (n - v.length) 0

/-- The inner loop `for (j = 1; j < top_shape.size(); ++j)
top_shape[j] = hdf_blobs_[i]->shape(j)` of the reshape phase. -/
def fillTopShape (s : List Nat) (t : List Nat) : List Nat :=
  (List.range s.length).foldl (fun acc j => if j = 0 then acc else acc.set j (s.getD j 0)) t

/-- One iteration of the reshape loop of `LayerSetUp`: resize the reused
`top_shape` vector to the blob's axis count, set entry 0 to `batch_size`,
fill the remaining entries from the blob's shape `s`. -/
def topShapeFor (prev : List Nat) (batch : Nat) (s : List Nat) : List Nat :=
  fillTopShape s ((listResize prev s.length).set 0 batch)

/-- The reshape loop of `LayerSetUp` over the shapes of the loaded blobs,
carrying the reused `top_shape` vector; returns the shapes given to
`top[i]->Reshape`. -/
def reshapeTops (batch : Nat) (prev : List Nat) : List (List Nat) → List (List Nat)
  | [] => []
  | s :: rest =>
    let t := topShapeFor prev batch s
    t :: reshapeTops batch t rest

/-- Scenario S6: one row of shape `(3, 2, 2)` in CHW order — four `R`
values, four `G` values, four `B` values. -/
def s6row : Nat → Nat :=
  fun x => [11, 12, 13, 14, 21, 22, 23, 24, 31, 32, 33, 34].getD x 0

/-- A manifest with three paths separated by mixed whitespace. -/
def manifestEx : String :=
  " a.h5\n\tb.h5  c.h5\n"

/-- A manifest that contains only whitespace (zero tokens). -/
def manifestBlank : String :=
  " \n\t \n"

theorem rowsBefore_zero (files : List (List Nat)) : rowsBefore files 0 = 0 := rfl

theorem rowsOf_cons_succ (l : List Nat) (rest : List (List Nat)) (f : Nat) :
    rowsOf (l :: rest) (f + 1) = rowsOf rest f := rfl

theorem rowsBefore_cons_succ (l : List Nat) (rest : List (List Nat)) (f : Nat) :
    rowsBefore (l :: rest) (f + 1) = l.length + rowsBefore rest f := by
  simp [rowsBefore, List.take_succ_cons]

theorem rowsBefore_succ (files : List (List Nat)) (f : Nat) (h : f < files.length) :
    rowsBefore files (f + 1) = rowsBefore files f + rowsOf files f := by
  induction files generalizing f with
  | nil => simp at h
  | cons l rest ih =>
    cases f with
    | zero => simp [rowsBefore, rowsOf, List.take_succ_cons]
    | succ f =>
      rw [rowsBefore_cons_succ, rowsBefore_cons_succ, rowsOf_cons_succ,
        ih f (by simpa using h)]
      omega

theorem rowsBefore_length (files : List (List Nat)) :
    rowsBefore files files.length = totalRows files := by
  simp [rowsBefore, totalRows, List.take_length]

theorem rowsBefore_le_total (files : List (List Nat)) (f : Nat) :
    rowsBefore files f ≤ totalRows files := by
  unfold rowsBefore totalRows
  exact List.Sublist.sum_le_sum ((List.take_sublist f files).map List.length)
    (fun x _ => Nat.zero_le x)

theorem rowsOf_pos (files : List (List Nat)) (f : Nat) (hf : f < files.length)
    (hne : ∀ l ∈ files, l ≠ []) : 0 < rowsOf files f := by
  have hmem : files.getD f [] ∈ files := by
    rw [List.getD_eq_getElem files [] hf]
    exact List.getElem_mem hf
  have := hne _ hmem
  unfold rowsOf
  cases hx : files.getD f [] with
  | nil => exact absurd hx this
  | cons a l => simp

theorem totalRows_eq_flatten_length (files : List (List Nat)) :
    totalRows files = files.flatten.length := by
  simp [totalRows, List.length_flatten]

theorem flatten_getD (files : List (List Nat)) (f r : Nat) (hf : f < files.length)
    (hr : r < rowsOf files f) :
    files.flatten.getD (rowsBefore files f + r) 0 = (files.getD f []).getD r 0 := by
  induction files generalizing f with
  | nil => simp at hf
  | cons l rest ih =>
    cases f with
    | zero =>
      rw [rowsBefore_zero, Nat.zero_add, List.flatten_cons]
      exact List.getD_append l rest.flatten 0 r hr
    | succ f =>
      rw [rowsBefore_cons_succ, List.flatten_cons, Nat.add_assoc]
      rw [List.getD_append_right l rest.flatten 0 _ (Nat.le_add_right _ _)]
      rw [Nat.add_sub_cancel_left]
      exact ih f (by simpa using hf) hr

theorem emitOne_spec (files : List (List Nat)) (s : Cursor)
    (hne : ∀ l ∈ files, l ≠ [])
    (h1 : s.file < files.length) (h2 : s.row ≤ rowsOf files s.file) :
    (emitOne files s).1 = files.flatten.getD (absPos files s % totalRows files) 0 ∧
    (emitOne files s).2.file < files.length ∧
    (emitOne files s).2.row ≤ rowsOf files ((emitOne files s).2.file) ∧
    absPos files ((emitOne files s).2) % totalRows files
      = (absPos files s + 1) % totalRows files := by
  obtain ⟨f, r, ld⟩ := s
  simp only [absPos] at *
  have hF : 0 < files.length := Nat.lt_of_le_of_lt (Nat.zero_le f) h1
  have h00 : rowsBefore files 0 = 0 := rfl
  have hr0 : 0 < rowsOf files 0 := rowsOf_pos files 0 hF hne
  have h01 : rowsBefore files 1 = rowsOf files 0 := by
    rw [rowsBefore_succ files 0 hF, h00, Nat.zero_add]
  have hT : 0 < totalRows files := by
    have := rowsBefore_le_total files 1
    omega
  by_cases hw : r = rowsOf files f
  · by_cases hm : 1 < files.length
    · by_cases hl : f + 1 = files.length
      · have habs : rowsBefore files f + r = totalRows files := by
          rw [hw, ← rowsBefore_succ files f h1, hl, rowsBefore_length]
        simp only [emitOne, wrapAdvance]
        rw [if_pos hw, if_pos hm, if_pos hl]
        refine ⟨?_, hF, hr0, ?_⟩
        · rw [habs, Nat.mod_self]
          simpa [h00] using (flatten_getD files 0 0 hF hr0).symm
        · simp only [h00, habs, Nat.zero_add, Nat.add_mod_left]
      · have h1s : f + 1 < files.length := Nat.lt_of_le_of_ne (Nat.succ_le_of_lt h1) hl
        have hrs : 0 < rowsOf files (f + 1) := rowsOf_pos files (f + 1) h1s hne
        have habs : rowsBefore files f + r = rowsBefore files (f + 1) := by
          rw [hw, rowsBefore_succ files f h1]
        have hlt : rowsBefore files (f + 1) < totalRows files := by
          have := rowsBefore_succ files (f + 1) h1s
          have := rowsBefore_le_total files (f + 1 + 1)
          omega
        simp only [emitOne, wrapAdvance]
        rw [if_pos hw, if_pos hm, if_neg hl]
        refine ⟨?_, h1s, hrs, ?_⟩
        · rw [habs, Nat.mod_eq_of_lt hlt]
          simpa using (flatten_getD files (f + 1) 0 h1s hrs).symm
        · rw [habs]
    · have hf0 : f = 0 := by omega
      subst hf0
      have htot : totalRows files = rowsOf files 0 := by
        have hlen : files.length = 1 := by omega
        rw [← rowsBefore_length files, hlen, h01]
      have habs : rowsBefore files 0 + r = totalRows files := by omega
      simp only [emitOne, wrapAdvance]
      rw [if_pos hw, if_neg hm]
      refine ⟨?_, hF, hr0, ?_⟩
      · rw [habs, Nat.mod_self]
        simpa [h00] using (flatten_getD files 0 0 hF hr0).symm
      · have hrT : r = totalRows files := by omega
        simp only [h00, hrT, Nat.zero_add, Nat.add_mod_left]
  · have hrlt : r < rowsOf files f := Nat.lt_of_le_of_ne h2 hw
    have hlt : rowsBefore files f + r < totalRows files := by
      have := rowsBefore_succ files f h1
      have := rowsBefore_le_total files (f + 1)
      omega
    simp only [emitOne, wrapAdvance]
    rw [if_neg hw]
    refine ⟨?_, h1, Nat.succ_le_of_lt hrlt, rfl⟩
    rw [Nat.mod_eq_of_lt hlt]
    exact (flatten_getD files f r h1 hrlt).symm

theorem stateAfter_inv (files : List (List Nat)) (hF : 0 < files.length)
    (hne : ∀ l ∈ files, l ≠ []) (n : Nat) :
    (stateAfter files n).file < files.length ∧
    (stateAfter files n).row ≤ rowsOf files ((stateAfter files n).file) ∧
    absPos files (stateAfter files n) % totalRows files = n % totalRows files := by
  induction n with
  | zero => exact ⟨hF, Nat.zero_le _, rfl⟩
  | succ n ih =>
    obtain ⟨ha, hb, hc⟩ := ih
    obtain ⟨_, h2, h3, h4⟩ := emitOne_spec files (stateAfter files n) hne ha hb
    refine ⟨h2, h3, ?_⟩
    show absPos files ((emitOne files (stateAfter files n)).2) % totalRows files = _
    rw [h4, Nat.add_mod, hc, ← Nat.add_mod]

theorem sampleAt_cyclic (files : List (List Nat)) (hF : 0 < files.length)
    (hne : ∀ l ∈ files, l ≠ []) (n : Nat) :
    sampleAt files n = files.flatten.getD (n % files.flatten.length) 0 := by
  obtain ⟨ha, hb, hc⟩ := stateAfter_inv files hF hne n
  have h := (emitOne_spec files (stateAfter files n) hne ha hb).1
  show (emitOne files (stateAfter files n)).1 = _
  rw [h, hc, totalRows_eq_flatten_length]

theorem stateAfter_loads_single (l : List Nat) (n : Nat) :
    (stateAfter [l] n).loads = 0 := by
  induction n with
  | zero => rfl
  | succ n ih =>
    show (emitOne [l] (stateAfter [l] n)).2.loads = 0
    by_cases hw : (stateAfter [l] n).row = rowsOf [l] ((stateAfter [l] n).file)
    · simp [emitOne, wrapAdvance, hw, ih]
    · simp [emitOne, wrapAdvance, hw, ih]

theorem forwardBatch_spec (files : List (List Nat)) (B n : Nat) :
    forwardBatch files B (stateAfter files n)
      = ((List.range B).map (fun k => sampleAt files (n + k)), stateAfter files (n + B)) := by
  induction B generalizing n with
  | zero => simp [forwardBatch]
  | succ B ih =>
    have hstep : ∀ k, n + 1 + k = n + (k + 1) := fun k => by omega
    simp only [forwardBatch]
    have hp2 : (emitOne files (stateAfter files n)).2 = stateAfter files (n + 1) := rfl
    rw [hp2, ih (n + 1)]
    simp [List.range_succ_eq_map, List.map_map, Function.comp, hstep, sampleAt]

theorem forwardSeq_spec (files : List (List Nat)) (B k : Nat) :
    (forwardSeq files B k).1.flatten = (List.range (k * B)).map (sampleAt files) ∧
    (forwardSeq files B k).2 = stateAfter files (k * B) := by
  induction k with
  | zero => simp [forwardSeq, stateAfter]
  | succ k ih =>
    obtain ⟨ih1, ih2⟩ := ih
    simp only [forwardSeq]
    rw [ih2, forwardBatch_spec]
    constructor
    · rw [List.flatten_append, ih1, Nat.succ_mul, List.range_add, List.map_append,
        List.map_map]
      simp [Function.comp]
    · rw [Nat.succ_mul]

theorem assembleRows_frame (bufs : Nat → Nat → Nat) (d : Nat) (sel : List (Nat × Nat))
    (i0 : Nat) (top : Nat → Nat) (y : Nat) (hy : y < i0 * d) :
    assembleRows bufs d sel i0 top y = top y := by
  induction sel generalizing i0 top with
  | nil => rfl
  | cons fr rest ih =>
    have hmul : (i0 + 1) * d = i0 * d + d := Nat.succ_mul i0 d
    have hy' : y < (i0 + 1) * d := by rw [hmul]; omega
    show assembleRows bufs d rest (i0 + 1)
      (caffeCopy d (bufs fr.1) (fr.2 * d) top (i0 * d)) y = top y
    rw [ih (i0 + 1) _ hy']
    simp only [caffeCopy]
    rw [if_neg (by omega)]

theorem assembleRows_slot (bufs : Nat → Nat → Nat) (d : Nat) (sel : List (Nat × Nat))
    (i0 : Nat) (top : Nat → Nat) (i x : Nat) (hi : i < sel.length) (hx : x < d) :
    assembleRows bufs d sel i0 top ((i0 + i) * d + x)
      = bufs (sel.getD i (0, 0)).1 ((sel.getD i (0, 0)).2 * d + x) := by
  induction sel generalizing i0 top i with
  | nil => simp at hi
  | cons fr rest ih =>
    cases i with
    | zero =>
      have hmul : (i0 + 1) * d = i0 * d + d := Nat.succ_mul i0 d
      have hidx : (i0 + 0) * d + x < (i0 + 1) * d := by
        rw [Nat.add_zero, hmul]; omega
      show assembleRows bufs d rest (i0 + 1)
        (caffeCopy d (bufs fr.1) (fr.2 * d) top (i0 * d)) ((i0 + 0) * d + x)
          = bufs fr.1 (fr.2 * d + x)
      rw [assembleRows_frame bufs d rest (i0 + 1) _ _ hidx]
      simp only [caffeCopy]
      rw [Nat.add_zero]
      rw [if_pos (by omega)]
      congr 1
      omega
    | succ i =>
      show assembleRows bufs d rest (i0 + 1)
        (caffeCopy d (bufs fr.1) (fr.2 * d) top (i0 * d)) ((i0 + (i + 1)) * d + x)
          = bufs (rest.getD i (0, 0)).1 ((rest.getD i (0, 0)).2 * d + x)
      have harg : i0 + (i + 1) = (i0 + 1) + i := by omega
      rw [harg]
      exact ih (i0 + 1) _ i (by simpa using hi)

theorem wrapAdvance_row_lt (files : List (List Nat)) (s : Cursor)
    (hne : ∀ l ∈ files, l ≠ [])
    (h1 : s.file < files.length) (h2 : s.row ≤ rowsOf files s.file) :
    (wrapAdvance files s).file < files.length ∧
    (wrapAdvance files s).row < rowsOf files ((wrapAdvance files s).file) := by
  obtain ⟨f, r, ld⟩ := s
  simp only at h1 h2
  by_cases hw : r = rowsOf files f
  · by_cases hm : 1 < files.length
    · by_cases hl : f + 1 = files.length
      · simp only [wrapAdvance]
        rw [if_pos hw, if_pos hm, if_pos hl]
        refine ⟨?_, ?_⟩
        · show 0 < files.length
          omega
        · show 0 < rowsOf files 0
          exact rowsOf_pos files 0 (by omega) hne
      · have h1s : f + 1 < files.length := Nat.lt_of_le_of_ne (Nat.succ_le_of_lt h1) hl
        simp only [wrapAdvance]
        rw [if_pos hw, if_pos hm, if_neg hl]
        exact ⟨h1s, rowsOf_pos files (f + 1) h1s hne⟩
    · simp only [wrapAdvance]
      rw [if_pos hw, if_neg hm]
      exact ⟨h1, rowsOf_pos files f h1 hne⟩
  · simp only [wrapAdvance]
    rw [if_neg hw]
    exact ⟨h1, Nat.lt_of_le_of_ne h2 hw⟩

theorem fillLoop_length (f : Nat → Nat) (js : List Nat) (acc : List Nat) :
    (js.foldl (fun a j => if j = 0 then a else a.set j (f j)) acc).length = acc.length := by
  induction js generalizing acc with
  | nil => rfl
  | cons j js ih =>
    rw [List.foldl_cons, ih]
    by_cases hj : j = 0 <;> simp [hj]

theorem fillLoop_getD (f : Nat → Nat) (js : List Nat) (acc : List Nat) (i : Nat) :
    (js.foldl (fun a j => if j = 0 then a else a.set j (f j)) acc).getD i 0
      = if i ≠ 0 ∧ i ∈ js ∧ i < acc.length then f i else acc.getD i 0 := by
  induction js generalizing acc with
  | nil => simp
  | cons j js ih =>
    rw [List.foldl_cons, ih]
    by_cases hj : j = 0
    · subst hj
      by_cases h0 : i = 0 <;> simp [h0, List.mem_cons]
    · rw [if_neg hj, List.length_set]
      by_cases hA : i ≠ 0 ∧ i ∈ js ∧ i < acc.length
      · rw [if_pos ⟨hA.1, by simp [hA.2.1], hA.2.2⟩,
          if_pos ⟨hA.1, List.mem_cons_of_mem _ hA.2.1, hA.2.2⟩]
      · rw [if_neg (by simpa using hA)]
        by_cases hij : i = j
        · subst hij
          by_cases hlen : i < acc.length
          · rw [if_pos ⟨hj, List.mem_cons_self _ _, hlen⟩]
            simp [List.getD_eq_getElem?_getD, List.getElem?_set_self, hlen]
          · rw [if_neg (by rintro ⟨-, -, h⟩; exact hlen h)]
            have hlen' : acc.length ≤ i := Nat.le_of_not_lt hlen
            rw [List.getD_eq_getElem?_getD, List.getD_eq_getElem?_getD,
              List.getElem?_eq_none (by simpa using hlen'),
              List.getElem?_eq_none hlen']
        · rw [List.getD_eq_getElem?_getD, List.getElem?_set_ne (fun hh => hij hh.symm),
            ← List.getD_eq_getElem?_getD]
          rw [if_neg]
          rintro ⟨hi0, hmem, hlen⟩
          rcases List.mem_cons.mp hmem with hh | hh
          · exact hij hh
          · exact hA ⟨hi0, hh, hlen⟩

theorem listResize_length (v : List Nat) (n : Nat) : (listResize v n).length = n := by
  simp [listResize]
  omega

theorem topShapeFor_eq (prev : List Nat) (batch : Nat) :
    ∀ (s : List Nat), s ≠ [] → topShapeFor prev batch s = batch :: s.tail := by
  intro s hs
  cases s with
  | nil => exact absurd rfl hs
  | cons a as =>
    have hrl : (listResize prev (a :: as).length).length = (a :: as).length :=
      listResize_length _ _
    have ht0 : ((listResize prev (a :: as).length).set 0 batch).length = (a :: as).length := by
      rw [List.length_set, hrl]
    have hlen : (topShapeFor prev batch (a :: as)).length = (a :: as).length := by
      unfold topShapeFor fillTopShape
      rw [fillLoop_length, ht0]
    apply List.ext_getElem (by simp [hlen])
    intro i h1 h2
    rw [← List.getD_eq_getElem (topShapeFor prev batch (a :: as)) 0 h1,
      ← List.getD_eq_getElem (batch :: List.tail (a :: as)) 0 h2]
    unfold topShapeFor fillTopShape
    rw [fillLoop_getD]
    cases i with
    | zero =>
      rw [if_neg (by simp)]
      have hpos : 0 < (listResize prev (as.length + 1)).length := by
        rw [listResize_length]; omega
      simp [List.getD_eq_getElem?_getD, List.getElem?_set_self, hpos]
    | succ m =>
      have him : m + 1 < (a :: as).length := by
        rw [hlen] at h1; exact h1
      rw [if_pos ⟨by omega, List.mem_range.mpr him, by rw [ht0]; exact him⟩]
      rfl

theorem reshapeTops_eq (batch : Nat) (prev : List Nat) (shapes : List (List Nat))
    (h : ∀ s ∈ shapes, s ≠ []) :
    reshapeTops batch prev shapes = shapes.map (fun s => batch :: s.tail) := by
  induction shapes generalizing prev with
  | nil => rfl
  | cons s rest ih =>
    show (topShapeFor prev batch s) :: reshapeTops batch (topShapeFor prev batch s) rest
      = (batch :: s.tail) :: rest.map (fun s => batch :: s.tail)
    rw [topShapeFor_eq prev batch s (h s (List.mem_cons_self _ _)),
      ih _ (fun x hx => h x (List.mem_cons_of_mem _ hx))]

/-- C1: with shuffle disabled and a manifest of more than one file, the
stream of samples emitted across successive forward calls is the rows of
file 0 in order, then file 1, …, then file F−1, repeated indefinitely —
the `n`-th emitted sample is entry `n mod totalRows` of the concatenation
of the files — regardless of how `batch_size` partitions the stream; in
particular scenario S2 (files of 3 and 2 rows, `batch_size = 2`) yields
forwards `[10,11], [12,20], [21,10], [11,12]`. -/
theorem hdf5_multi_file_stream :
    (∀ (files : List (List Nat)) (B k : Nat), 1 < files.length →
        (∀ l ∈ files, l ≠ []) →
        ((forwardSeq files B k).1).flatten
          = (List.range (k * B)).map
              (fun n => files.flatten.getD (n % files.flatten.length) 0)) ∧
    (forwardSeq s2files 2 4).1 = [[10, 11], [12, 20], [21, 10], [11, 12]] := by
  constructor
  · intro files B k hF hne
    rw [(forwardSeq_spec files B k).1]
    have hfun : sampleAt files = fun n => files.flatten.getD (n % files.flatten.length) 0 :=
      funext (fun n => sampleAt_cyclic files (by omega) hne n)
    rw [hfun]
  · decide

theorem hdf5_multi_file_stream_witness :
    1 < s2files.length ∧ (∀ l ∈ s2files, l ≠ []) ∧
    ((forwardSeq s2files 2 3).1).flatten
      = (List.range (3 * 2)).map
          (fun n => s2files.flatten.getD (n % s2files.flatten.length) 0) :=
  ⟨by decide, by decide, hdf5_multi_file_stream.1 s2files 2 3 (by decide) (by decide)⟩

/-- C5: with shuffle disabled and a single file of `R` rows, the emitted
row stream is `0, 1, …, R−1, 0, 1, …`, purely periodic with period `R`
(the `n`-th emission is `n mod R`), and `LoadHDF5FileData` is never called
again during forwards (the single FileBundle is reused); scenario S1
(`R = 5`, `batch_size = 2`) yields forwards `[0,1], [2,3], [4,0]`. -/
theorem hdf5_single_file_period :
    (∀ (R B k : Nat), 0 < R →
        ((forwardSeq [List.range R] B k).1).flatten
            = (List.range (k * B)).map (fun n => n % R) ∧
        ((forwardSeq [List.range R] B k).2).loads = 0) ∧
    (forwardSeq [List.range 5] 2 3).1 = [[0, 1], [2, 3], [4, 0]] := by
  constructor
  · intro R B k hR
    have hne : ∀ l ∈ [List.range R], l ≠ [] := by
      intro l hl
      rw [List.mem_singleton] at hl
      subst hl
      simp [List.range_eq_nil]
      omega
    constructor
    · rw [(forwardSeq_spec [List.range R] B k).1]
      have hfl : ([List.range R] : List (List Nat)).flatten = List.range R := by
        simp
      have hfun : sampleAt [List.range R] = fun n => n % R := by
        funext n
        rw [sampleAt_cyclic [List.range R] (by simp) hne n, hfl, List.length_range]
        have hm : n % R < R := Nat.mod_lt n hR
        rw [List.getD_eq_getElem _ 0 (by simpa using hm)]
        exact List.getElem_range _ _
      rw [hfun]
    · rw [(forwardSeq_spec [List.range R] B k).2]
      exact stateAfter_loads_single (List.range R) (k * B)
  · decide

theorem hdf5_single_file_period_witness :
    0 < 5 ∧
    ((forwardSeq [List.range 5] 2 3).1).flatten
        = (List.range (3 * 2)).map (fun n => n % 5) ∧
    ((forwardSeq [List.range 5] 2 3).2).loads = 0 :=
  ⟨by decide, (hdf5_single_file_period.1 5 2 3 (by decide)).1,
    (hdf5_single_file_period.1 5 2 3 (by decide)).2⟩

/-- C2 (amended): between forward calls the cursor satisfies
`row_idx ≤ rows_in_current_file` (not the strict `<` of the original
claim): when a forward call ends exactly at a file boundary the row index
is left EQUAL to the row count, and the wrap to row 0 is performed lazily
at the head of the next forward's per-sample loop.  At every sample
emission, after that wrap adjustment, the selected row index is strictly
less than the row count of the (possibly newly loaded) current file; the
current file index always stays in range. -/
theorem hdf5_cursor_row_bound (files : List (List Nat)) (B k : Nat)
    (hF : 0 < files.length) (hne : ∀ l ∈ files, l ≠ []) :
    ((forwardSeq files B k).2).file < files.length ∧
    ((forwardSeq files B k).2).row ≤ rowsOf files (((forwardSeq files B k).2).file) ∧
    (∀ n : Nat,
      (wrapAdvance files (stateAfter files n)).row
        < rowsOf files ((wrapAdvance files (stateAfter files n)).file)) := by
  rw [(forwardSeq_spec files B k).2]
  obtain ⟨h1, h2, -⟩ := stateAfter_inv files hF hne (k * B)
  refine ⟨h1, h2, ?_⟩
  intro n
  obtain ⟨g1, g2, -⟩ := stateAfter_inv files hF hne n
  exact (wrapAdvance_row_lt files (stateAfter files n) hne g1 g2).2

theorem hdf5_cursor_row_bound_witness :
    0 < ([[10, 11], [20, 21]] : List (List Nat)).length ∧
    (∀ l ∈ ([[10, 11], [20, 21]] : List (List Nat)), l ≠ []) ∧
    ((forwardSeq [[10, 11], [20, 21]] 3 1).2).file < ([[10, 11], [20, 21]] : List (List Nat)).length ∧
    ((forwardSeq [[10, 11], [20, 21]] 3 1).2).row
      ≤ rowsOf [[10, 11], [20, 21]] (((forwardSeq [[10, 11], [20, 21]] 3 1).2).file) :=
  ⟨by decide, by decide,
    (hdf5_cursor_row_bound [[10, 11], [20, 21]] 3 1 (by decide) (by decide)).1,
    (hdf5_cursor_row_bound [[10, 11], [20, 21]] 3 1 (by decide) (by decide)).2.1⟩

/-- C2 counterexample: after one forward of `batch_size = 2` over a single
file of 2 rows, the cursor rests between forward calls with
`current_row_ = 2`, equal to — not strictly less than — the number of rows
of the currently loaded file, refuting the claim as stated. -/
theorem hdf5_cursor_row_strict_cex :
    ((forwardSeq [[10, 11]] 2 1).2).row = 2 ∧
    rowsOf [[10, 11]] (((forwardSeq [[10, 11]] 2 1).2).file) = 2 ∧
    ¬ ((forwardSeq [[10, 11]] 2 1).2).row
        < rowsOf [[10, 11]] (((forwardSeq [[10, 11]] 2 1).2).file) := by
  decide

/-- C6: outside the image+transform treatment of output 0 (every output
`j ≥ 1`, and every output when `image` is false or no transform
configuration is present), sample slot `i` of output `j` after a forward
equals, element for element, the selected source row of that output's
blob: for every in-row offset `x < data_dim`, the output buffer at
`i * data_dim + x` holds the source buffer's value at
`(selected row) * data_dim + x`, the selected row being
`data_permutation_[current_row_]` in the bundle current at step `i`. -/
theorem hdf5_copy_slot (isImage hasTransform : Bool) (j : Nat) (imgPath : Nat → Nat)
    (bufs : Nat → Nat → Nat) (d : Nat) (sel : List (Nat × Nat)) (top : Nat → Nat)
    (hpath : usesImagePath isImage hasTransform j = false)
    (i x : Nat) (hi : i < sel.length) (hx : x < d) :
    forwardOutput isImage hasTransform j imgPath bufs d sel top (i * d + x)
      = bufs (sel.getD i (0, 0)).1 ((sel.getD i (0, 0)).2 * d + x) := by
  unfold forwardOutput
  rw [hpath]
  simp only [Bool.false_eq_true, if_false]
  have h := assembleRows_slot bufs d sel 0 top i x hi hx
  rw [Nat.zero_add] at h
  exact h

theorem hdf5_copy_slot_witness :
    usesImagePath false false 0 = false ∧ (1 : Nat) < 2 ∧ (1 : Nat) < 2 ∧
    forwardOutput false false 0 (fun _ => 0) (fun f y => 100 * f + y) 2
        [(0, 1), (1, 0)] (fun _ => 7) (1 * 2 + 1)
      = (100 * 1 + (0 * 2 + 1) : Nat) :=
  ⟨by decide, by decide, by decide,
    hdf5_copy_slot false false 0 (fun _ => 0) (fun f y => 100 * f + y) 2
      [(0, 1), (1, 0)] (fun _ => 7) (by decide) 1 1 (by decide) (by decide)⟩

/-- C3 (code bug): the image+transform path does NOT write the
transformer's output for batch position `i` at element offset
`i * data_dim`, and does NOT leave output 0's buffer binding unchanged.
`set_cpu_data(mutable_cpu_data() + i*data_dim)` advances the CURRENT
binding, which is never restored, so the offsets compound: with
`data_dim = 12` the writes for `i = 0, 1, 2` land at offsets `0, 12, 36`
(not `24` for `i = 2` — past the end of a 3-sample output buffer of
`3*12` elements), and after a `batch_size = 3` forward the binding is
left advanced by 36 elements instead of 0. -/
theorem hdf5_image_rebind_offsets :
    imageWriteOffset 12 0 = 0 ∧
    imageWriteOffset 12 1 = 1 * 12 ∧
    imageWriteOffset 12 2 = 3 * 12 ∧
    imageWriteOffset 12 2 ≠ 2 * 12 ∧
    3 * 12 ≤ imageWriteOffset 12 2 ∧
    imageBind 12 3 = 36 ∧
    imageBind 12 3 ≠ 0 := by
  decide

/-- C4: on the image+transform path, for a source row of a blob of shape
`(N, 3, H, W)`, the materialized HWC image has, at channel `c < 3` of
pixel `(h, w)` with `h < H`, `w < W`, the row's element at flat index
`c*H*W + h*W + w`, cast to an 8-bit unsigned integer; scenario S6
(`H = W = 2`) gives pixel `(0,0) = (R₀,G₀,B₀)`, `(0,1) = (R₁,G₁,B₁)`,
`(1,0) = (R₂,G₂,B₂)`, `(1,1) = (R₃,G₃,B₃)`. -/
theorem hdf5_hwc_materialization :
    (∀ (src : Nat → Nat) (r H W c h w : Nat), c < 3 → h < H → w < W →
        hwcPixel (imgRow src r (3 * H * W)) H W c h w
          = src (r * (3 * H * W) + (c * H * W + h * W + w)) % 256) ∧
    (∀ h : Nat, h < 2 → ∀ w : Nat, w < 2 →
        hwcPixel (imgRow s6row 0 12) 2 2 0 h w = s6row (h * 2 + w) ∧
        hwcPixel (imgRow s6row 0 12) 2 2 1 h w = s6row (4 + (h * 2 + w)) ∧
        hwcPixel (imgRow s6row 0 12) 2 2 2 h w = s6row (8 + (h * 2 + w))) := by
  constructor
  · intro src r H W c h w _ _ _
    unfold hwcPixel imgRow chwIndex
    congr 2
    ring
  · decide

theorem hdf5_hwc_materialization_witness :
    (1 : Nat) < 3 ∧ (0 : Nat) < 2 ∧ (1 : Nat) < 2 ∧
    hwcPixel (imgRow s6row 0 (3 * 2 * 2)) 2 2 1 0 1
      = s6row (0 * (3 * 2 * 2) + (1 * 2 * 2 + 0 * 2 + 1)) % 256 :=
  ⟨by decide, by decide, by decide,
    hdf5_hwc_materialization.1 s6row 0 2 2 1 0 1 (by decide) (by decide) (by decide)⟩

/-- C10: on the image+transform path, with output 0 reshaped from a
source blob of shape `(N, 3, H, W)` (so `data_dim = 3*H*W` for any
positive batch size), every index `c*W*H + h*W + w` used by the
bounds-checked `img_data.at(...)` read with `c < 3`, `h < H`, `w < W` is
strictly below `data_dim`, so the checked access never fails. -/
theorem hdf5_image_index_bound (batch N H W : Nat) (hb : 0 < batch)
    (hH : 0 < H) (hW : 0 < W) :
    dataDim (topShapeFor [] batch [N, 3, H, W]) = 3 * H * W ∧
    (∀ c h w : Nat, c < 3 → h < H → w < W →
      chwIndex H W c h w < dataDim (topShapeFor [] batch [N, 3, H, W])) := by
  have hshape : topShapeFor [] batch [N, 3, H, W] = [batch, 3, H, W] := by
    rw [topShapeFor_eq [] batch [N, 3, H, W] (by simp)]
    rfl
  have hprod : ([batch, 3, H, W] : List Nat).prod = batch * (3 * H * W) := by
    show batch * (3 * (H * (W * 1))) = batch * (3 * H * W)
    ring
  have hd : dataDim [batch, 3, H, W] = 3 * H * W := by
    unfold dataDim blobCount
    rw [hprod]
    show batch * (3 * H * W) / batch = 3 * H * W
    exact Nat.mul_div_cancel_left _ hb
  refine ⟨by rw [hshape, hd], ?_⟩
  intro c h w hc hh hw
  rw [hshape, hd]
  unfold chwIndex
  have e1 : c * W * H = c * (H * W) := by ring
  have e2 : h * W + w < H * W := by
    have hs : (h + 1) * W ≤ H * W := Nat.mul_le_mul_right W (Nat.succ_le_of_lt hh)
    have ht : (h + 1) * W = h * W + W := Nat.succ_mul h W
    omega
  have e3 : c * (H * W) ≤ 2 * (H * W) := Nat.mul_le_mul_right _ (by omega)
  have e4 : 3 * H * W = 3 * (H * W) := by ring
  rw [e1, e4]
  omega

theorem hdf5_image_index_bound_witness :
    (0 : Nat) < 1 ∧ (0 : Nat) < 2 ∧ (0 : Nat) < 2 ∧ (2 : Nat) < 3 ∧ (1 : Nat) < 2 ∧
    dataDim (topShapeFor [] 1 [4, 3, 2, 2]) = 3 * 2 * 2 ∧
    chwIndex 2 2 2 1 1 < dataDim (topShapeFor [] 1 [4, 3, 2, 2]) :=
  ⟨by decide, by decide, by decide, by decide, by decide,
    (hdf5_image_index_bound 1 4 2 2 (by decide) (by decide) (by decide)).1,
    (hdf5_image_index_bound 1 4 2 2 (by decide) (by decide) (by decide)).2
      2 1 1 (by decide) (by decide) (by decide)⟩

/-- C7: loading a data file trips the fatal shape validation exactly when
the first declared output has fewer than one axis or some subsequent
output's outermost dimension differs from the first output's; a file
whose first dataset has 4 rows and whose second has 3 faults at load
time (`loadFile` yields an error, so no batch is ever assembled from it),
while a matching file loads successfully. -/
theorem hdf5_load_validation :
    (∀ (s0 : List Nat) (rest : List (List Nat)),
        loadCheckFatal (s0 :: rest) = true ↔
          (s0.length < 1 ∨ ∃ s ∈ rest, s.headD 0 ≠ s0.headD 0)) ∧
    loadFile [[4, 2], [3, 2]] = Except.error () ∧
    loadFile [[4, 2], [4]] = Except.ok [[4, 2], [4]] := by
  refine ⟨?_, rfl, rfl⟩
  intro s0 rest
  simp [loadCheckFatal]

/-- C8: setup's manifest ingestion fails exactly when the manifest file
cannot be opened (`none`) or contains zero whitespace-separated tokens;
otherwise the stored manifest is exactly the token sequence of the file,
verbatim and in order.  The concrete manifests check tokenization over
mixed whitespace and the all-whitespace (zero-token) case. -/
theorem hdf5_manifest_reading :
    readManifest none = Except.error () ∧
    (∀ s : String, tokenizeManifest s = [] → readManifest (some s) = Except.error ()) ∧
    (∀ s : String, tokenizeManifest s ≠ [] →
        readManifest (some s) = Except.ok (tokenizeManifest s)) ∧
    tokenizeManifest manifestEx = ["a.h5", "b.h5", "c.h5"] ∧
    tokenizeManifest manifestBlank = [] := by
  refine ⟨rfl, ?_, ?_, rfl, rfl⟩
  · intro s hs
    simp [readManifest, hs]
  · intro s hs
    have hlen : 1 ≤ (tokenizeManifest s).length := by
      cases h : tokenizeManifest s with
      | nil => exact absurd h hs
      | cons a l => simp
    simp [readManifest, hlen]

theorem hdf5_manifest_reading_witness :
    tokenizeManifest manifestEx ≠ [] ∧
    readManifest (some manifestEx) = Except.ok (tokenizeManifest manifestEx) :=
  ⟨by simp [show tokenizeManifest manifestEx = ["a.h5", "b.h5", "c.h5"] from rfl],
    hdf5_manifest_reading.2.2.1 manifestEx
      (by simp [show tokenizeManifest manifestEx = ["a.h5", "b.h5", "c.h5"] from rfl])⟩

/-- C9: after setup, every declared output `j` is reshaped to
`(batch_size, d₁, …, d_{k-1})` where `(d₀, …, d_{k-1})` is the shape of
blob `j` loaded from the first file — the same axis count as the source,
agreeing with it everywhere except axis 0, which holds `batch_size`
(the reuse of the `top_shape` vector across outputs has no effect). -/
theorem hdf5_reshape_shapes (batch : Nat) (shapes : List (List Nat))
    (h : ∀ s ∈ shapes, s ≠ []) :
    reshapeTops batch [] shapes = shapes.map (fun s => batch :: s.tail) :=
  reshapeTops_eq batch [] shapes h

theorem hdf5_reshape_shapes_witness :
    (∀ s ∈ ([[5, 2], [5]] : List (List Nat)), s ≠ []) ∧
    reshapeTops 3 [] [[5, 2], [5]] = ([[5, 2], [5]] : List (List Nat)).map (fun s => 3 :: s.tail) :=
  ⟨by decide, hdf5_reshape_shapes 3 [[5, 2], [5]] (by decide)⟩

end HDF5Data
